import Mathlib

/-!
# Verification of the TLS JSON-RPC transport (`jrpc-transport-tls`)

Shallow embedding of `src/index.js`: the `TLSTransport` class, its private
state bag (`_data`), the `connect` / `disconnect` / `send` operations and the
socket event handlers (`onSocketSecureConnect`, `onSocketTimeout`,
`onSocketError`, `onSocketClose`, `onSocketData`).

JavaScript strings are embedded as `List Char`; machine-level `Number`s that
validation inspects are embedded as `Rat` (the constructor only compares a
port against 1 and 65535, and 80.5-style doubles are exact rationals, so the
embedding is faithful at every comparison the code performs).  Promises are
embedded by their observable outcome (which branch resolved/rejected, and
which socket operations ran); the deferred `setImmediate` emissions are
embedded as the ordered list of notifications a handler schedules.
-/

/-- JavaScript primitive values, as far as the transport's validation code
inspects them: `check.nonEmptyString` (used by the constructor and `send`)
and `check.inRange` (used by the constructor) only distinguish strings,
finite numbers, `NaN`, and everything else. -/
inductive JSPrim where
  | undefined
  | null
  | boolean (b : Bool)
  | number (q : Rat)
  | nan
  | string (s : List Char)
deriving DecidableEq, Repr

/-- Result of `JSON.parse` on one line: the parsed structured value.
Objects and arrays are collapsed to opaque tokens because the transport only
ever forwards them (and tests their truthiness, which is constantly `true`
for both). -/
inductive JSValue where
  | null
  | boolean (b : Bool)
  | number (q : Rat)
  | string (s : List Char)
  | object
  | array
deriving DecidableEq, Repr

/-- JavaScript truthiness of a parsed JSON value, as tested by
`if (message)` in `onSocketData`. -/
def truthy : JSValue → Bool
  | .null => false
  | .boolean b => b
  | .number q => q != 0
  | .string s => s ≠ []
  | .object => true
  | .array => true

/-- An options object: an association list from property names to primitive
values, first match wins (JavaScript objects have unique keys; `Object.assign`
is embedded below by list append with the overriding sources in front). -/
abbrev Bag : Type := List (List Char × JSPrim)

/-- Property lookup on an options object. -/
def bagGet (b : Bag) (k : List Char) : Option JSPrim :=
  match b with
  | [] => none
  | (k', v) :: rest => if k' = k then some v else bagGet rest k

/-- The `extra` constructor argument as the validation
`check.assert.maybe.object(extra, ...)` distinguishes it: absent
(`undefined`), `null` (accepted by the `maybe` modifier), a genuine object, or
any other value (rejected). -/
inductive ExtraArg where
  | absent
  | nullArg
  | obj (b : Bag)
  | invalid
deriving Repr

/-- The private `_data` bag of one `TLSTransport` instance: `options`,
`socket`, `connected`, `error`, plus the lazily-created `buffer` used by
`onSocketData` (absent until the first data event, hence `Option`).  Sockets
are embedded by an identifying handle number; only presence and identity
matter to the code. -/
structure TransportData where
  options : Bag
  socket : Option Nat
  connected : Bool
  error : Option (List Char)
  buffer : Option (List Char)
deriving DecidableEq, Repr

/-- Notifications the transport emits (always via `setImmediate`, so deferred
but in schedule order): `connected`, `disconnected` (carrying the pending
error or `null`), `data` (carrying one parsed message), `error` (carrying one
parse error). -/
inductive Notification where
  | connected
  | disconnected (err : Option (List Char))
  | data (v : JSValue)
  | error (e : List Char)
deriving DecidableEq, Repr

/-! ## Constructor (`src/index.js` lines 68–90) -/

/-- Embeds `check.nonEmptyString(v)`: `v` is a string and its length is positive. -/
def checkNonEmptyString : JSPrim → Bool
  | .string s => s ≠ []
  | _ => false

/-- Embeds `check.inRange(v, 1, 65535)` from `check-types`: `v` is a number (not
`NaN`) with `1 ≤ v` and `v ≤ 65535`.  Note: no integrality test. -/
def checkInRange (v : JSPrim) (lo hi : Rat) : Bool :=
  match v with
  | .number q => decide (lo ≤ q ∧ q ≤ hi)
  | _ => false

/-- Embeds `check.maybe.object(v)`: `v` is `undefined`, `null`, or a plain object. -/
def checkMaybeObject : ExtraArg → Bool
  | .invalid => false
  | _ => true

/-- The own-property list of the `extra` source in `Object.assign`:
`null`/`undefined` sources contribute nothing. -/
def extraBag : ExtraArg → Bag
  | .obj b => b
  | _ => []

/-- The merged options produced by
`Object.assign({rejectUnauthorized: true}, extra, {host, port, path: undefined, socket: undefined})`:
first-match lookup with the forced keys in front, then `extra`, then the
default.  `path` and `socket` are own properties with value `undefined`. -/
def mergeOptions (host port : JSPrim) (extra : ExtraArg) : Bag :=
  ([("host".toList, host), ("port".toList, port),
    ("path".toList, JSPrim.undefined), ("socket".toList, JSPrim.undefined)]
    : Bag)
  ++ extraBag extra
  ++ ([("rejectUnauthorized".toList, JSPrim.boolean true)] : Bag)

/-- The fresh `_data` entry written by the constructor. -/
def freshState (opts : Bag) : TransportData :=
  { options := opts, socket := none, connected := false,
    error := none, buffer := none }

/-- Embeds `new TLSTransport` with arguments host, port, extra: the three `check.assert` calls in
source order (each throwing a `TypeError` with its message), then the
`Object.assign` merge and the `_data.set`. -/
def construct (host port : JSPrim) (extra : ExtraArg) :
    Except (List Char) TransportData :=
  if checkNonEmptyString host = false then
    .error ("missing/invalid \"host\" option".toList)
  else if checkInRange port 1 65535 = false then
    .error ("missing/invalid \"port\" option".toList)
  else if checkMaybeObject extra = false then
    .error ("invalid \"extra\" option".toList)
  else
    .ok (freshState (mergeOptions host port extra))

/-! ## `connect` (lines 120–156) -/

/-- Observable outcome of one `connect()` call: resolve immediately (already
connected), reject with the "already in progress" error (handle exists,
handshake pending), or initiate a new connection (create a socket with a
fresh handle, register the `connected`/`disconnected` listeners). -/
inductive ConnectOutcome where
  | resolved
  | rejectedInProgress (msg : List Char)
  | initiated (handle : Nat)
deriving DecidableEq, Repr

/-- Embeds `connect()`.  `fresh` is the handle of the socket `createSocket` would
return in the initiating branch; the two early branches return before any
`_data.set`, so the state is untouched there. -/
def connect (st : TransportData) (fresh : Nat) :
    ConnectOutcome × TransportData :=
  match st.socket with
  | some _ =>
      if st.connected then (.resolved, st)
      else (.rejectedInProgress ("Connection already in progress".toList), st)
  | none =>
      (.initiated fresh, { st with connected := false, socket := some fresh })

/-! ## `send` (lines 199–215) -/

/-- Observable outcome of one `send(data)` call: reject with the `TypeError`
(validation), reject with the `DisconnectedError` (not connected), or perform
one `socket.write` of exactly the given bytes, resolving in the write
confirmation callback.  The method never calls `_data.set`, so the transport
state is unchanged in every branch. -/
inductive SendOutcome where
  | rejectedTypeError (msg : List Char)
  | rejectedDisconnected (msg : List Char)
  | wrote (bytes : List Char)
deriving DecidableEq, Repr

/-- The character content of a string primitive (only reached after
`check.nonEmptyString` succeeded). -/
def primChars : JSPrim → List Char
  | .string s => s
  | _ => []

/-- Embeds `send(data)`: validation check, connection check, then
`socket.write(data + "\n", 'utf8', resolve-callback)`. -/
def send (st : TransportData) (d : JSPrim) : SendOutcome :=
  if checkNonEmptyString d = false then
    .rejectedTypeError ("missing/invalid \"data\" parameter".toList)
  else if st.connected = false then
    .rejectedDisconnected ("Transport not connected".toList)
  else
    .wrote (primChars d ++ ['\n'])

/-! ## `disconnect` (lines 163–186) -/

/-- The closure state of one pending `disconnect()` promise: the `once`
listener on `disconnected`, the 5000 ms `setTimeout` that would call
`socket.destroy()`, and whether `resolve` has run.  `rejected` embeds the
fact that the executor receives no `reject` function at all; `endCalled`
records the initiating `socket.end()` half-close. -/
structure DiscPromise where
  resolved : Bool
  rejected : Bool
  timerActive : Bool
  destroyCalled : Bool
  endCalled : Bool
deriving DecidableEq, Repr

/-- Events that can reach a pending `disconnect()` promise: the transport's
`disconnected` notification, or the 5000 ms deadline elapsing. -/
inductive DiscEv where
  | disconnected
  | deadline
deriving DecidableEq, Repr

/-- The promise state right after the `socket.end()` call: timer armed,
nothing resolved. -/
def discInit : DiscPromise :=
  { resolved := false, rejected := false, timerActive := true,
    destroyCalled := false, endCalled := true }

/-- One event delivered to the pending promise: the `once('disconnected')`
listener clears the timer and resolves (and is deregistered, hence the
`resolved` guard); the elapsed deadline calls `socket.destroy()` and nothing
else. -/
def discStep (s : DiscPromise) (e : DiscEv) : DiscPromise :=
  match e with
  | .disconnected =>
      if s.resolved then s
      else { s with resolved := true, timerActive := false }
  | .deadline =>
      if s.timerActive then
        { s with destroyCalled := true, timerActive := false }
      else s

/-- Deliver a sequence of events to the pending promise. -/
def discRun (s : DiscPromise) (trace : List DiscEv) : DiscPromise :=
  trace.foldl discStep s

/-- Outcome of a `disconnect()` call: resolve immediately (no socket), or
arm the deadline, register the listener, call `socket.end()` and wait. -/
inductive DisconnectCall where
  | immediate
  | pending (p : DiscPromise)
deriving DecidableEq, Repr

/-- Embeds `disconnect()`. -/
def disconnectCall (st : TransportData) : DisconnectCall :=
  match st.socket with
  | none => .immediate
  | some _ => .pending discInit

/-! ## Socket event handlers (lines 291–349) -/

/-- Embeds `onSocketSecureConnect`: clear the pending error, mark connected,
schedule the `connected` notification. -/
def onSocketSecureConnect (st : TransportData) :
    TransportData × List Notification :=
  ({ st with error := none, connected := true }, [.connected])

/-- Embeds `onSocketTimeout`: record the "Connection timed out" pending error, then
call `this.disconnect()` on the updated state (the returned promise is
dropped). -/
def onSocketTimeout (st : TransportData) : TransportData × DisconnectCall :=
  let st1 := { st with error := some ("Connection timed out".toList) }
  (st1, disconnectCall st1)

/-- Embeds `onSocketError`: record the socket error as the pending error. -/
def onSocketError (st : TransportData) (e : List Char) : TransportData :=
  { st with error := some e }

/-- Embeds `onSocketClose`: capture the pending error, reset `error`, `socket` and
`connected` (and nothing else — `buffer` and `options` keep their values),
schedule one `disconnected` notification carrying the captured error. -/
def onSocketClose (st : TransportData) : TransportData × List Notification :=
  ({ st with error := none, socket := none, connected := false },
   [.disconnected st.error])

/-! ## Inbound framing and parsing (`onSocketData`, lines 357–387) -/

/-- Embeds `String.prototype.indexOf` specialised to one character, returning
`none` for the JavaScript `-1`. -/
def jsIndexOf : List Char → Char → Option Nat
  | [], _ => none
  | c :: cs, d => if c = d then some 0 else (jsIndexOf cs d).map (· + 1)

/-- The `JSON.parse` codec, abstract: a parse either returns a value or
throws (an error message).  The transport treats it as an external
collaborator and is verified for every such codec. -/
def JSONParse : Type := List Char → Except (List Char) JSValue

/-- The notifications one extracted candidate line schedules, in source
order: on a parse exception, one `error` notification; then `if (message)` —
the parsed value, `undefined` after an exception — schedules one `data`
notification exactly when the value is truthy. -/
def lineEvents (parse : JSONParse) (line : List Char) : List Notification :=
  match parse line with
  | .error e => [.error e]
  | .ok v => if truthy v then [.data v] else []

/-- The `while (delimiter >= 0)` loop of `onSocketData`: repeatedly take
`buffer.substr(0, delimiter)` as one candidate, handle it, and continue on
`buffer.substr(delimiter + 1)`.  Returns the remaining buffer and the
scheduled notifications in order.  `fuel` bounds the number of loop
iterations; each iteration removes at least one character from the buffer,
so `buffer.length` iterations always suffice (`drainLoop_fuel`) and the
`fuel = 0` base case is unreachable from `drainBuffer`. -/
def drainLoop (parse : JSONParse) : Nat → List Char →
    List Char × List Notification
  | 0, buffer => (buffer, [])
  | fuel + 1, buffer =>
      match jsIndexOf buffer '\n' with
      | none => (buffer, [])
      | some i =>
          let rest := drainLoop parse fuel (buffer.drop (i + 1))
          (rest.1, lineEvents parse (buffer.take i) ++ rest.2)

/-- The buffer-draining loop of `onSocketData`, run to completion. -/
def drainBuffer (parse : JSONParse) (buffer : List Char) :
    List Char × List Notification :=
  drainLoop parse buffer.length buffer

/-- Specification-side view of the same loop: the complete
line-terminator-delimited candidates of a character sequence, and the
unterminated remainder after the last terminator.  Same iteration scheme as
`drainLoop`. -/
def splitLoop : Nat → List Char → List (List Char) × List Char
  | 0, buffer => ([], buffer)
  | fuel + 1, buffer =>
      match jsIndexOf buffer '\n' with
      | none => ([], buffer)
      | some i =>
          let rest := splitLoop fuel (buffer.drop (i + 1))
          (buffer.take i :: rest.1, rest.2)

/-- The candidate lines the draining loop extracts, in order. -/
def linesOf (buffer : List Char) : List (List Char) :=
  (splitLoop buffer.length buffer).1

/-- The unterminated remainder the draining loop leaves in the buffer. -/
def restOf (buffer : List Char) : List Char :=
  (splitLoop buffer.length buffer).2

/-- The buffer as `onSocketData` reads it: the `typeof data.buffer !==
'string'` guard replaces an absent buffer with the empty string. -/
def bufOf (st : TransportData) : List Char :=
  match st.buffer with
  | none => []
  | some b => b

/-- Embeds `onSocketData(chunk)`: normalise the buffer, append the chunk, drain all
complete lines, store the remainder. -/
def onSocketData (parse : JSONParse) (st : TransportData)
    (chunk : List Char) : TransportData × List Notification :=
  let d := drainBuffer parse (bufOf st ++ chunk)
  ({ st with buffer := some d.1 }, d.2)

/-- Deliver a sequence of socket `data` events, collecting all scheduled
notifications in order. -/
def processChunks (parse : JSONParse) (st : TransportData) :
    List (List Char) → TransportData × List Notification
  | [] => (st, [])
  | c :: cs =>
      let r1 := onSocketData parse st c
      let r2 := processChunks parse r1.1 cs
      (r2.1, r1.2 ++ r2.2)

/-- Model of ECMAScript `JSON.parse` (an external collaborator: the spec
assumes a codec that parses or throws) restricted to the literal fragment
used in the concrete examples of this development: the literals `null`,
`true`, `false` and unsigned decimal integer numerals without leading
zeros; every other input throws a syntax error, as `JSON.parse` does on
those inputs. -/
def jsonParseLit : JSONParse := fun s =>
  if s = "null".toList then .ok .null
  else if s = "true".toList then .ok (.boolean true)
  else if s = "false".toList then .ok (.boolean false)
  else if s ≠ [] ∧ s.all (·.isDigit) ∧ (s.head? = some '0' → s = ['0']) then
    .ok (.number (s.foldl (fun n c => 10 * n + (c.toNat - 48)) 0 : Nat))
  else
    .error ("Unexpected token".toList)

/-! ## Reachable transport states and sample states -/

/-- States of the private `_data` bag reachable through the embedded
operations: a successful construction, a `connect()` call, and the socket
event handlers.  Socket notifications (`secureConnect`, `timeout`, `error`)
only fire while the socket exists, hence their handle hypotheses; `close` is
the socket's final notification and `data` only changes the buffer. -/
inductive Reachable : TransportData → Prop where
  | init : ∀ host port extra td,
      construct host port extra = Except.ok td → Reachable td
  | connectStep : ∀ st fresh, Reachable st → Reachable (connect st fresh).2
  | secureConnectStep : ∀ st n, Reachable st → st.socket = some n →
      Reachable (onSocketSecureConnect st).1
  | timeoutStep : ∀ st n, Reachable st → st.socket = some n →
      Reachable (onSocketTimeout st).1
  | errorStep : ∀ st n e, Reachable st → st.socket = some n →
      Reachable (onSocketError st e)
  | closeStep : ∀ st, Reachable st → Reachable (onSocketClose st).1
  | dataStep : ∀ st parse chunk, Reachable st →
      Reachable (onSocketData parse st chunk).1

/-- A transport whose socket has completed its handshake. -/
def sampleConnected : TransportData :=
  { options := [], socket := some 0, connected := true,
    error := none, buffer := none }

/-- A transport with a socket still handshaking. -/
def sampleConnecting : TransportData :=
  { options := [], socket := some 0, connected := false,
    error := none, buffer := none }

/-- A connected transport holding an unterminated partial line. -/
def sampleBuffered : TransportData :=
  { options := [], socket := some 0, connected := true,
    error := none, buffer := some ['a'] }

/-- The state produced by a successful sample construction. -/
def sampleInit : TransportData :=
  freshState (mergeOptions (JSPrim.string "example.com".toList)
    (JSPrim.number 1234) ExtraArg.absent)

/-- An extra-options bag that tries to override the connection target and
disable peer verification. -/
def sampleExtraBag : Bag :=
  [("rejectUnauthorized".toList, JSPrim.boolean false),
   ("host".toList, JSPrim.string "evil".toList)]

/-- The state produced by constructing with `sampleExtraBag`. -/
def sampleExtraTd : TransportData :=
  freshState (mergeOptions (JSPrim.string "example.com".toList)
    (JSPrim.number 1234) (ExtraArg.obj sampleExtraBag))

/-! ## Basic lemmas about `jsIndexOf` -/

theorem jsIndexOf_lt_length {s : List Char} {c : Char} {i : Nat}
    (h : jsIndexOf s c = some i) : i < s.length := by
  induction s generalizing i with
  | nil => simp [jsIndexOf] at h
  | cons x xs ih =>
      simp only [jsIndexOf] at h
      split at h
      · simp_all
        omega
      · cases hx : jsIndexOf xs c with
        | none => simp [hx] at h
        | some j =>
            simp [hx] at h
            subst h
            simpa [List.length_cons] using Nat.succ_lt_succ (ih hx)

theorem jsIndexOf_none_iff {s : List Char} {c : Char} :
    jsIndexOf s c = none ↔ c ∉ s := by
  induction s with
  | nil => simp [jsIndexOf]
  | cons x xs ih =>
      simp only [jsIndexOf, List.mem_cons]
      split
      · simp_all
      · cases hx : jsIndexOf xs c <;> simp_all [eq_comm]

/-- Decomposition at the first occurrence: the prefix before the hit is
hit-free, the character at the hit is `c`, and take/drop recover the parts. -/
theorem jsIndexOf_some_decomp {s : List Char} {c : Char} {i : Nat}
    (h : jsIndexOf s c = some i) :
    s.take i ++ c :: s.drop (i + 1) = s ∧ c ∉ s.take i := by
  induction s generalizing i with
  | nil => simp [jsIndexOf] at h
  | cons x xs ih =>
      simp only [jsIndexOf] at h
      split at h
      · rename_i hx
        simp at h
        subst hx
        cases h
        simp
      · rename_i hx
        cases hj : jsIndexOf xs c with
        | none => simp [hj] at h
        | some j =>
            simp [hj] at h
            subst h
            have := ih hj
            simp only [List.take_succ_cons, List.drop_succ_cons]
            refine ⟨by simpa using this.1, ?_⟩
            simp [List.mem_cons, this.2, Ne.symm hx]

theorem jsIndexOf_append_some {b : List Char} {c : Char} {i : Nat}
    (t : List Char) (h : jsIndexOf b c = some i) :
    jsIndexOf (b ++ t) c = some i := by
  induction b generalizing i with
  | nil => simp [jsIndexOf] at h
  | cons x xs ih =>
      simp only [jsIndexOf, List.cons_append] at h ⊢
      by_cases hx : x = c
      · rw [if_pos hx] at h ⊢
        exact h
      · rw [if_neg hx] at h ⊢
        cases hj : jsIndexOf xs c with
        | none => simp [hj] at h
        | some j =>
            rw [hj] at h
            simp only [Option.map_some'] at h
            simp only [List.append_eq]
            rw [ih hj]
            simpa using h

theorem jsIndexOf_append_none {b : List Char} {c : Char}
    (t : List Char) (h : jsIndexOf b c = none) :
    jsIndexOf (b ++ t) c = (jsIndexOf t c).map (· + b.length) := by
  induction b with
  | nil =>
      simp only [List.nil_append, List.length_nil]
      cases hk : jsIndexOf t c <;> simp
  | cons x xs ih =>
      simp only [jsIndexOf, List.cons_append] at h ⊢
      split at h
      · simp at h
      · rename_i hx
        rw [if_neg hx]
        simp only [List.append_eq]
        cases hj : jsIndexOf xs c with
        | none =>
            rw [ih hj]
            cases hk : jsIndexOf t c <;> simp [List.length_cons]
            omega
        | some j => simp [hj] at h

/-! ## Step equations and fuel irrelevance for the draining loop -/

theorem drainLoop_succ_none (parse : JSONParse) (fuel : Nat) {b : List Char}
    (h : jsIndexOf b '\n' = none) :
    drainLoop parse (fuel + 1) b = (b, []) := by
  simp [drainLoop, h]

theorem drainLoop_succ_some (parse : JSONParse) (fuel : Nat) {b : List Char}
    {i : Nat} (h : jsIndexOf b '\n' = some i) :
    drainLoop parse (fuel + 1) b =
      ((drainLoop parse fuel (b.drop (i + 1))).1,
       lineEvents parse (b.take i) ++
         (drainLoop parse fuel (b.drop (i + 1))).2) := by
  simp [drainLoop, h]

theorem drainBuffer_none {b : List Char} (parse : JSONParse)
    (h : jsIndexOf b '\n' = none) :
    drainBuffer parse b = (b, []) := by
  rw [drainBuffer]
  cases hl : b.length with
  | zero => rfl
  | succ m => rw [drainLoop_succ_none parse m h]

theorem drainLoop_fuel (parse : JSONParse) (b : List Char) :
    ∀ fuel, b.length ≤ fuel → drainLoop parse fuel b = drainBuffer parse b := by
  intro fuel hb
  match fuel with
  | 0 =>
      have : b = [] := List.length_eq_zero.mp (Nat.le_zero.mp hb)
      subst this
      rfl
  | fuel + 1 =>
      cases hi : jsIndexOf b '\n' with
      | none =>
          rw [drainLoop_succ_none parse fuel hi, drainBuffer_none parse hi]
      | some i =>
          have hlt : i < b.length := jsIndexOf_lt_length hi
          obtain ⟨m, hm⟩ : ∃ m, b.length = m + 1 := ⟨b.length - 1, by omega⟩
          have hdl : (b.drop (i + 1)).length < b.length := by
            simp only [List.length_drop]
            omega
          conv_rhs => rw [drainBuffer, hm, drainLoop_succ_some parse m hi]
          rw [drainLoop_succ_some parse fuel hi]
          rw [drainLoop_fuel parse (b.drop (i + 1)) fuel
                (by simp only [List.length_drop]; omega),
              drainLoop_fuel parse (b.drop (i + 1)) m
                (by simp only [List.length_drop]; omega)]
termination_by b.length
decreasing_by all_goals exact hdl

theorem drainBuffer_some {b : List Char} {i : Nat} (parse : JSONParse)
    (h : jsIndexOf b '\n' = some i) :
    drainBuffer parse b =
      ((drainBuffer parse (b.drop (i + 1))).1,
       lineEvents parse (b.take i) ++
         (drainBuffer parse (b.drop (i + 1))).2) := by
  have hlt : i < b.length := jsIndexOf_lt_length h
  rw [drainBuffer]
  cases hl : b.length with
  | zero => omega
  | succ m =>
      rw [drainLoop_succ_some parse m h]
      rw [drainLoop_fuel parse (b.drop (i + 1)) m
            (by simp only [List.length_drop]; omega)]

theorem splitLoop_succ_none (fuel : Nat) {b : List Char}
    (h : jsIndexOf b '\n' = none) :
    splitLoop (fuel + 1) b = ([], b) := by
  simp [splitLoop, h]

theorem splitLoop_succ_some (fuel : Nat) {b : List Char} {i : Nat}
    (h : jsIndexOf b '\n' = some i) :
    splitLoop (fuel + 1) b =
      (b.take i :: (splitLoop fuel (b.drop (i + 1))).1,
       (splitLoop fuel (b.drop (i + 1))).2) := by
  simp [splitLoop, h]

theorem splitLoop_none {b : List Char} (h : jsIndexOf b '\n' = none) :
    splitLoop b.length b = ([], b) := by
  cases hl : b.length with
  | zero => rfl
  | succ m => rw [splitLoop_succ_none m h]

theorem splitLoop_fuel (b : List Char) :
    ∀ fuel, b.length ≤ fuel → splitLoop fuel b = (linesOf b, restOf b) := by
  intro fuel hb
  match fuel with
  | 0 =>
      have : b = [] := List.length_eq_zero.mp (Nat.le_zero.mp hb)
      subst this
      rfl
  | fuel + 1 =>
      rw [linesOf, restOf]
      cases hi : jsIndexOf b '\n' with
      | none =>
          rw [splitLoop_succ_none fuel hi, splitLoop_none hi]
      | some i =>
          have hlt : i < b.length := jsIndexOf_lt_length hi
          obtain ⟨m, hm⟩ : ∃ m, b.length = m + 1 := ⟨b.length - 1, by omega⟩
          have hdl : (b.drop (i + 1)).length < b.length := by
            simp only [List.length_drop]
            omega
          conv_rhs => rw [hm, splitLoop_succ_some m hi]
          rw [splitLoop_succ_some fuel hi]
          rw [splitLoop_fuel (b.drop (i + 1)) fuel
                (by simp only [List.length_drop]; omega),
              splitLoop_fuel (b.drop (i + 1)) m
                (by simp only [List.length_drop]; omega)]
termination_by b.length
decreasing_by all_goals exact hdl

theorem linesOf_none {b : List Char} (h : jsIndexOf b '\n' = none) :
    linesOf b = [] := by
  rw [linesOf]
  cases hl : b.length with
  | zero => rfl
  | succ m => rw [splitLoop_succ_none m h]

theorem restOf_none {b : List Char} (h : jsIndexOf b '\n' = none) :
    restOf b = b := by
  rw [restOf]
  cases hl : b.length with
  | zero => rfl
  | succ m => rw [splitLoop_succ_none m h]

theorem linesOf_some {b : List Char} {i : Nat}
    (h : jsIndexOf b '\n' = some i) :
    linesOf b = b.take i :: linesOf (b.drop (i + 1)) := by
  have hlt : i < b.length := jsIndexOf_lt_length h
  rw [linesOf]
  cases hl : b.length with
  | zero => omega
  | succ m =>
      rw [splitLoop_succ_some m h]
      rw [splitLoop_fuel (b.drop (i + 1)) m
            (by simp only [List.length_drop]; omega)]

theorem restOf_some {b : List Char} {i : Nat}
    (h : jsIndexOf b '\n' = some i) :
    restOf b = restOf (b.drop (i + 1)) := by
  have hlt : i < b.length := jsIndexOf_lt_length h
  rw [restOf]
  cases hl : b.length with
  | zero => omega
  | succ m =>
      rw [splitLoop_succ_some m h]
      rw [splitLoop_fuel (b.drop (i + 1)) m
            (by simp only [List.length_drop]; omega)]

/-- The draining loop computed from the specification-side split: the events
are the per-line events of the extracted candidates, in stream order, and the
remaining buffer is the unterminated remainder. -/
theorem drainBuffer_eq_split (parse : JSONParse) (b : List Char) :
    drainBuffer parse b =
      (restOf b, ((linesOf b).map (lineEvents parse)).flatten) := by
  cases hi : jsIndexOf b '\n' with
  | none =>
      rw [drainBuffer_none parse hi, linesOf_none hi, restOf_none hi]
      rfl
  | some i =>
      rw [drainBuffer_some parse hi, linesOf_some hi, restOf_some hi,
          drainBuffer_eq_split parse (b.drop (i + 1))]
      simp
termination_by b.length
decreasing_by
  have := jsIndexOf_lt_length hi
  simp only [List.length_drop]
  omega

/-! ## Composition of the line split across chunk boundaries -/

/-- The remainder the loop leaves behind never contains a terminator. -/
theorem restOf_no_newline (b : List Char) :
    jsIndexOf (restOf b) '\n' = none := by
  cases hi : jsIndexOf b '\n' with
  | none => rw [restOf_none hi]; exact hi
  | some i =>
      rw [restOf_some hi]
      exact restOf_no_newline (b.drop (i + 1))
termination_by b.length
decreasing_by
  have := jsIndexOf_lt_length hi
  simp only [List.length_drop]
  omega

/-- Splitting a concatenation: the lines of `b ++ c` are the lines of `b`
followed by the lines of `b`'s remainder joined with `c`, and likewise for
the final remainder.  This is what makes draining chunk-by-chunk agree with
draining the whole stream. -/
theorem linesOf_restOf_append (b c : List Char) :
    linesOf (b ++ c) = linesOf b ++ linesOf (restOf b ++ c) ∧
      restOf (b ++ c) = restOf (restOf b ++ c) := by
  cases hi : jsIndexOf b '\n' with
  | none =>
      rw [linesOf_none hi, restOf_none hi]
      simp
  | some i =>
      have hlt : i < b.length := jsIndexOf_lt_length hi
      have hab : jsIndexOf (b ++ c) '\n' = some i := jsIndexOf_append_some c hi
      have htake : (b ++ c).take i = b.take i :=
        List.take_append_of_le_length (by omega)
      have hdrop : (b ++ c).drop (i + 1) = b.drop (i + 1) ++ c :=
        List.drop_append_of_le_length (by omega)
      have ih := linesOf_restOf_append (b.drop (i + 1)) c
      constructor
      · rw [linesOf_some hab, htake, hdrop, linesOf_some hi, restOf_some hi,
            ih.1, List.cons_append]
      · rw [restOf_some hab, hdrop, restOf_some hi, ih.2]
termination_by b.length
decreasing_by
  all_goals
    have := jsIndexOf_lt_length hi
    simp only [List.length_drop]
    omega

/-- One extracted line per terminator: the number of candidates equals the
number of line-feed characters in the stream. -/
theorem linesOf_length_eq_count (b : List Char) :
    (linesOf b).length = b.count '\n' := by
  cases hi : jsIndexOf b '\n' with
  | none =>
      rw [linesOf_none hi]
      have := jsIndexOf_none_iff.mp hi
      simp [List.count_eq_zero.mpr this]
  | some i =>
      have hlt : i < b.length := jsIndexOf_lt_length hi
      obtain ⟨hdec, hnot⟩ := jsIndexOf_some_decomp hi
      rw [linesOf_some hi]
      have ih := linesOf_length_eq_count (b.drop (i + 1))
      calc (b.take i :: linesOf (b.drop (i + 1))).length
          = (linesOf (b.drop (i + 1))).length + 1 := by simp
        _ = (b.drop (i + 1)).count '\n' + 1 := by rw [ih]
        _ = b.count '\n' := by
            conv_rhs => rw [← hdec]
            simp [List.count_append, List.count_eq_zero.mpr hnot]
termination_by b.length
decreasing_by
  have := jsIndexOf_lt_length hi
  simp only [List.length_drop]
  omega

/-- Rewrites `onSocketData` in terms of the specification-side split. -/
theorem onSocketData_eq (parse : JSONParse) (st : TransportData)
    (chunk : List Char) :
    onSocketData parse st chunk =
      ({ st with buffer := some (restOf (bufOf st ++ chunk)) },
       ((linesOf (bufOf st ++ chunk)).map (lineEvents parse)).flatten) := by
  rw [onSocketData, drainBuffer_eq_split]

/-- Chunk-boundary invariance: delivering any chunk sequence to a transport
whose buffer holds no complete line produces exactly the per-line events of
the concatenated stream (prefixed by the buffered leftover), in stream
order, and leaves the remainder after the last terminator buffered. -/
theorem processChunks_eq (parse : JSONParse) (st : TransportData)
    (chunks : List (List Char))
    (h : jsIndexOf (bufOf st) '\n' = none) :
    (processChunks parse st chunks).2 =
      ((linesOf (bufOf st ++ chunks.flatten)).map (lineEvents parse)).flatten
    ∧ bufOf (processChunks parse st chunks).1 =
        restOf (bufOf st ++ chunks.flatten) := by
  induction chunks generalizing st with
  | nil =>
      rw [processChunks]
      simp [linesOf_none h, restOf_none h]
  | cons c cs ih =>
      rw [processChunks]
      simp only [onSocketData_eq]
      have hb2 : bufOf { st with buffer := some (restOf (bufOf st ++ c)) } =
          restOf (bufOf st ++ c) := rfl
      have hnn : jsIndexOf
          (bufOf { st with buffer := some (restOf (bufOf st ++ c)) }) '\n'
            = none := by
        rw [hb2]
        exact restOf_no_newline (bufOf st ++ c)
      obtain ⟨he, hbuf⟩ := ih _ hnn
      rw [hb2] at he hbuf
      have hsplit := linesOf_restOf_append (bufOf st ++ c) cs.flatten
      constructor
      · show ((linesOf (bufOf st ++ c)).map (lineEvents parse)).flatten ++ _ = _
        rw [he, List.flatten_cons, ← List.append_assoc, hsplit.1,
            List.map_append, List.flatten_append]
      · show bufOf (processChunks parse _ cs).1 = _
        rw [hbuf, ← hsplit.2, List.flatten_cons, ← List.append_assoc]

/-! ## Validation predicates, semantically -/

theorem checkNonEmptyString_iff (d : JSPrim) :
    checkNonEmptyString d = true ↔ ∃ s, d = JSPrim.string s ∧ s ≠ [] := by
  cases d <;> simp [checkNonEmptyString]

theorem checkInRange_iff (v : JSPrim) (lo hi : Rat) :
    checkInRange v lo hi = true ↔
      ∃ q, v = JSPrim.number q ∧ lo ≤ q ∧ q ≤ hi := by
  cases v <;> simp [checkInRange]

theorem checkMaybeObject_iff (e : ExtraArg) :
    checkMaybeObject e = true ↔ e ≠ ExtraArg.invalid := by
  cases e <;> simp [checkMaybeObject]

theorem bagGet_append (a b : Bag) (k : List Char) :
    bagGet (a ++ b) k =
      match bagGet a k with
      | some v => some v
      | none => bagGet b k := by
  induction a with
  | nil => simp [bagGet]
  | cons kv rest ih =>
      obtain ⟨k', v⟩ := kv
      by_cases hk : k' = k
      · simp [bagGet, hk]
      · simp only [List.cons_append, bagGet, if_neg hk]
        exact ih

/-! ## `connect` and `disconnect` helper lemmas -/

/-- When a handle exists, neither `connect` branch writes `_data`. -/
theorem connect_snd_of_socket {st : TransportData} {n : Nat} (fresh : Nat)
    (hs : st.socket = some n) : (connect st fresh).2 = st := by
  simp only [connect, hs]
  split <;> rfl

theorem discRun_rejected (trace : List DiscEv) :
    ∀ s : DiscPromise, (discRun s trace).rejected = s.rejected := by
  induction trace with
  | nil => intro s; rfl
  | cons e t ih =>
      intro s
      have hstep : (discStep s e).rejected = s.rejected := by
        cases e <;> simp [discStep] <;> split <;> rfl
      rw [discRun, List.foldl_cons, ← discRun, ih, hstep]

theorem discRun_resolved (trace : List DiscEv) :
    ∀ s : DiscPromise, (discRun s trace).resolved = true ↔
      s.resolved = true ∨ DiscEv.disconnected ∈ trace := by
  induction trace with
  | nil => intro s; simp [discRun]
  | cons e t ih =>
      intro s
      rw [discRun, List.foldl_cons, ← discRun, ih]
      cases e with
      | disconnected =>
          by_cases hr : s.resolved = true <;> simp [discStep, hr]
      | deadline =>
          have : (discStep s DiscEv.deadline).resolved = s.resolved := by
            simp [discStep]
            split <;> rfl
          rw [this]
          simp

theorem discRun_destroy_mono (trace : List DiscEv) :
    ∀ s : DiscPromise, s.destroyCalled = true →
      (discRun s trace).destroyCalled = true := by
  induction trace with
  | nil => intro s h; exact h
  | cons e t ih =>
      intro s h
      rw [discRun, List.foldl_cons, ← discRun]
      apply ih
      cases e <;> simp [discStep] <;> split <;> simp [h]

theorem discRun_destroy (trace : List DiscEv) :
    ∀ s : DiscPromise, DiscEv.disconnected ∉ trace →
      DiscEv.deadline ∈ trace → s.timerActive = true →
      (discRun s trace).destroyCalled = true := by
  induction trace with
  | nil => intro s _ hd; simp at hd
  | cons e t ih =>
      intro s hnd hd ht
      cases e with
      | disconnected => simp at hnd
      | deadline =>
          rw [discRun, List.foldl_cons, ← discRun]
          apply discRun_destroy_mono
          simp [discStep, ht]

/-! ## Claim theorems -/

/-- Claim C1, counterexample to the claim as stated.  The concatenation of the
single inbound chunk `"null\n"` contains exactly one complete
line-feed-terminated line, and that line parses as JSON (`JSON.parse` returns
`null`), yet processing the chunk emits no notification at all — neither a
data nor an error notification — because `onSocketData` only emits `data`
when the parsed value is truthy. -/
theorem C1_counterexample :
    ("null\n".toList).count '\n' = 1 ∧
    jsonParseLit ("null".toList) = Except.ok JSValue.null ∧
    (processChunks jsonParseLit (freshState []) ["null\n".toList]).2 = [] := by
  refine ⟨by decide, by rfl, by decide⟩

/-- Claim C1, amended.  For every JSON codec and every sequence of inbound
chunks delivered to a freshly constructed transport, the emitted
notifications are exactly the per-line notifications of the complete lines of
the concatenated stream, in stream order and independent of chunk
boundaries; the number of complete lines is the number of line-feed bytes in
the concatenation; and each line contributes exactly one error notification
when parsing throws, exactly one data notification when it parses to a
truthy value, and no notification when it parses to a falsy value
(`null`, `false`, `0`, `""`).  In particular a parse failure never drops,
blocks, or corrupts any later line already in the buffer. -/
theorem C1_chunk_invariant_line_notifications (parse : JSONParse)
    (opts : Bag) (chunks : List (List Char)) :
    (processChunks parse (freshState opts) chunks).2 =
      ((linesOf chunks.flatten).map (lineEvents parse)).flatten ∧
    (linesOf chunks.flatten).length = chunks.flatten.count '\n' ∧
    ∀ line, lineEvents parse line =
      match parse line with
      | .error e => [Notification.error e]
      | .ok v => if truthy v then [Notification.data v] else [] := by
  have h := (processChunks_eq parse (freshState opts) chunks rfl).1
  rw [show bufOf (freshState opts) = [] from rfl, List.nil_append] at h
  exact ⟨h, linesOf_length_eq_count _, fun line => rfl⟩

/-- Claim C2: when a handle exists, `connect()` resolves immediately if the
transport is connected and rejects with the "already in progress" error if
the handshake is still pending; in both cases the private state is returned
untouched — no second handle is created and nothing changes. -/
theorem C2_connect_preconditions (st : TransportData) (n fresh : Nat)
    (hs : st.socket = some n) :
    connect st fresh =
      ((if st.connected then ConnectOutcome.resolved
        else ConnectOutcome.rejectedInProgress
          ("Connection already in progress".toList)), st) := by
  simp only [connect, hs]
  split <;> simp_all

/-- Claim C2 witness: both branches at concrete states. -/
theorem C2_connect_preconditions_witness :
    connect sampleConnected 1 = (ConnectOutcome.resolved, sampleConnected) ∧
    connect sampleConnecting 1 =
      (ConnectOutcome.rejectedInProgress
        ("Connection already in progress".toList), sampleConnecting) := by
  constructor
  · simpa using C2_connect_preconditions sampleConnected 0 1 rfl
  · simpa using C2_connect_preconditions sampleConnecting 0 1 rfl

/-- Claim C3: `send(d)` rejects with the validation `TypeError` exactly when
`d` is missing, empty, or not a string; a non-empty string sent while not
connected rejects with the distinct `DisconnectedError`; the two rejection
constructors are distinguishable; and a write happens only when validation
and the connection check both pass (so neither rejection touches the handle;
`send` never writes `_data`, so no branch changes transport state). -/
theorem C3_send_validation (st : TransportData) (d : JSPrim) :
    ((∃ m, send st d = SendOutcome.rejectedTypeError m) ↔
      ¬ ∃ s, d = JSPrim.string s ∧ s ≠ []) ∧
    (∀ s, d = JSPrim.string s → s ≠ [] → st.connected = false →
      send st d =
        SendOutcome.rejectedDisconnected ("Transport not connected".toList)) ∧
    (∀ m m', SendOutcome.rejectedTypeError m ≠
      SendOutcome.rejectedDisconnected m') ∧
    (∀ w, send st d = SendOutcome.wrote w →
      (∃ s, d = JSPrim.string s ∧ s ≠ []) ∧ st.connected = true) := by
  refine ⟨?_, ?_, by simp, ?_⟩
  · rw [← checkNonEmptyString_iff]
    cases hne : checkNonEmptyString d with
    | false => simp [send, hne]
    | true =>
        simp only [send, hne]
        cases hc : st.connected <;> simp
  · intro s hd hs hc
    subst hd
    have hne : checkNonEmptyString (JSPrim.string s) = true := by
      simp [checkNonEmptyString, hs]
    simp [send, hne, hc]
  · intro w hw
    rw [← checkNonEmptyString_iff]
    cases hne : checkNonEmptyString d with
    | false => simp [send, hne] at hw
    | true =>
        cases hc : st.connected with
        | false => simp [send, hne, hc] at hw
        | true => exact ⟨rfl, rfl⟩

/-- Claim C3 witness: a disconnected fresh transport rejects a valid payload
with the `DisconnectedError`. -/
theorem C3_send_validation_witness :
    send (freshState []) (JSPrim.string ['x']) =
      SendOutcome.rejectedDisconnected ("Transport not connected".toList) :=
  (C3_send_validation (freshState []) (JSPrim.string ['x'])).2.1
    ['x'] rfl (by decide) rfl

/-- Claim C4: while connected, `send` of a non-empty string writes exactly the
payload bytes followed by exactly one line-feed byte as a single write
(resolving in the write-confirmation callback); symmetrically the inbound
parser splits exactly at each line feed — the candidate before a terminator
is taken verbatim, with no trimming of trailing whitespace. -/
theorem C4_bit_exact_framing (st : TransportData) (s l r : List Char)
    (hs : s ≠ []) (hc : st.connected = true) (hl : '\n' ∉ l) :
    send st (JSPrim.string s) = SendOutcome.wrote (s ++ ['\n']) ∧
    linesOf (l ++ '\n' :: r) = l :: linesOf r ∧
    restOf (l ++ '\n' :: r) = restOf r := by
  have hne : checkNonEmptyString (JSPrim.string s) = true := by
    simp [checkNonEmptyString, hs]
  have hidx : jsIndexOf (l ++ '\n' :: r) '\n' = some l.length := by
    rw [jsIndexOf_append_none _ (jsIndexOf_none_iff.mpr hl)]
    simp [jsIndexOf]
  have htake : (l ++ '\n' :: r).take l.length = l := by
    rw [List.take_append_of_le_length (Nat.le_refl _), List.take_length]
  have hdrop : (l ++ '\n' :: r).drop (l.length + 1) = r := by
    simp
  refine ⟨by simp [send, hne, hc, primChars], ?_, ?_⟩
  · rw [linesOf_some hidx, htake, hdrop]
  · rw [restOf_some hidx, hdrop]

/-- Claim C4 witness: a concrete connected send and a concrete split with a
whitespace-suffixed candidate. -/
theorem C4_bit_exact_framing_witness :
    send sampleConnected (JSPrim.string ['h', 'i']) =
      SendOutcome.wrote ['h', 'i', '\n'] ∧
    linesOf (['a', ' '] ++ '\n' :: ['b']) = [['a', ' ']] ++ linesOf ['b'] ∧
    restOf (['a', ' '] ++ '\n' :: ['b']) = restOf ['b'] :=
  C4_bit_exact_framing sampleConnected ['h', 'i'] ['a', ' '] ['b']
    (by decide) rfl (by decide)

/-- Claim C5: `disconnect()` never rejects (the promise executor receives no
reject function and none of its callbacks can reject); with no handle it
resolves immediately; with a handle it half-closes and resolves exactly when
the `disconnected` notification is observed — an elapsed deadline calls
`socket.destroy()` but never resolves the promise early. -/
theorem C5_disconnect_contract (st0 st : TransportData) (n : Nat)
    (trace : List DiscEv) (h0 : st0.socket = none) (hs : st.socket = some n) :
    disconnectCall st0 = DisconnectCall.immediate ∧
    disconnectCall st = DisconnectCall.pending discInit ∧
    (discRun discInit trace).rejected = false ∧
    ((discRun discInit trace).resolved = true ↔
      DiscEv.disconnected ∈ trace) ∧
    (DiscEv.disconnected ∉ trace → DiscEv.deadline ∈ trace →
      (discRun discInit trace).destroyCalled = true) := by
  refine ⟨by simp [disconnectCall, h0], by simp [disconnectCall, hs],
    ?_, ?_, ?_⟩
  · rw [discRun_rejected]
    rfl
  · rw [discRun_resolved]
    simp [discInit]
  · intro hnd hd
    exact discRun_destroy trace discInit hnd hd rfl

/-- Claim C5 witness: a trace where the deadline elapses before the closed
notification — destroy is escalated, and resolution still waits for the
notification. -/
theorem C5_disconnect_contract_witness :
    disconnectCall (freshState []) = DisconnectCall.immediate ∧
    disconnectCall sampleConnected = DisconnectCall.pending discInit ∧
    (discRun discInit [DiscEv.deadline, DiscEv.disconnected]).rejected
      = false ∧
    ((discRun discInit [DiscEv.deadline, DiscEv.disconnected]).resolved = true
      ↔ DiscEv.disconnected ∈ [DiscEv.deadline, DiscEv.disconnected]) ∧
    (DiscEv.disconnected ∉ [DiscEv.deadline, DiscEv.disconnected] →
      DiscEv.deadline ∈ [DiscEv.deadline, DiscEv.disconnected] →
      (discRun discInit
        [DiscEv.deadline, DiscEv.disconnected]).destroyCalled = true) :=
  C5_disconnect_contract (freshState []) sampleConnected 0
    [DiscEv.deadline, DiscEv.disconnected] rfl rfl

/-- Claim C6: on a socket idle timeout the transport records the
"Connection timed out" pending error and initiates the very same
`disconnect()` path (the second conjunct is the definitional identity); once
the socket closes, exactly one `disconnected` notification fires carrying
that error, and the handle and pending error are reset. -/
theorem C6_timeout_single_disconnect (st : TransportData) (n : Nat)
    (hs : st.socket = some n) :
    (onSocketTimeout st).1.error = some ("Connection timed out".toList) ∧
    (onSocketTimeout st).2 = disconnectCall (onSocketTimeout st).1 ∧
    (onSocketTimeout st).2 = DisconnectCall.pending discInit ∧
    (onSocketClose (onSocketTimeout st).1).2 =
      [Notification.disconnected (some ("Connection timed out".toList))] ∧
    (onSocketClose (onSocketTimeout st).1).1.socket = none ∧
    (onSocketClose (onSocketTimeout st).1).1.error = none := by
  refine ⟨rfl, rfl, ?_, rfl, rfl, rfl⟩
  simp [onSocketTimeout, disconnectCall, hs]

/-- Claim C6 witness. -/
theorem C6_timeout_single_disconnect_witness :
    (onSocketTimeout sampleConnected).1.error =
      some ("Connection timed out".toList) ∧
    (onSocketTimeout sampleConnected).2 =
      disconnectCall (onSocketTimeout sampleConnected).1 ∧
    (onSocketTimeout sampleConnected).2 = DisconnectCall.pending discInit ∧
    (onSocketClose (onSocketTimeout sampleConnected).1).2 =
      [Notification.disconnected (some ("Connection timed out".toList))] ∧
    (onSocketClose (onSocketTimeout sampleConnected).1).1.socket = none ∧
    (onSocketClose (onSocketTimeout sampleConnected).1).1.error = none :=
  C6_timeout_single_disconnect sampleConnected 0 rfl

/-- Claim C7, counterexample to the claim as stated.  The port `80.5` — a
number in range but not an integer — is accepted by the constructor:
`check.assert.inRange` from `check-types` only requires a number within the
bounds, so construction succeeds where the claim demands a throw. -/
theorem C7_counterexample :
    (1 ≤ (161 / 2 : Rat) ∧ (161 / 2 : Rat) ≤ 65535 ∧
      ¬ ∃ z : Int, (161 / 2 : Rat) = (z : Rat)) ∧
    construct (JSPrim.string "example.com".toList)
        (JSPrim.number (161 / 2 : Rat)) ExtraArg.absent =
      Except.ok (freshState (mergeOptions
        (JSPrim.string "example.com".toList)
        (JSPrim.number (161 / 2 : Rat)) ExtraArg.absent)) := by
  have hni : ¬ ∃ z : Int, (161 / 2 : Rat) = (z : Rat) := by
    rintro ⟨z, hz⟩
    have h2 : (161 : Rat) = (z : Rat) * 2 := by
      field_simp at hz
      linarith [hz]
    have h3 : (161 : Int) = z * 2 := by exact_mod_cast h2
    omega
  have hir : checkInRange (JSPrim.number (161 / 2 : Rat)) 1 65535 = true := by
    simp only [checkInRange, decide_eq_true_eq]
    norm_num
  refine ⟨⟨by norm_num, by norm_num, hni⟩, ?_⟩
  simp [construct, hir, checkMaybeObject]
  decide

/-- The four forced keys of the merged options miss every other key. -/
theorem bagGet_forced_none (host port : JSPrim) (k : List Char)
    (h1 : "host".toList ≠ k) (h2 : "port".toList ≠ k)
    (h3 : "path".toList ≠ k) (h4 : "socket".toList ≠ k) :
    bagGet (([("host".toList, host), ("port".toList, port),
      ("path".toList, JSPrim.undefined), ("socket".toList, JSPrim.undefined)]
      : Bag)) k = none := by
  simp only [bagGet]
  rw [if_neg h1, if_neg h2, if_neg h3, if_neg h4]

/-- Claim C7, amended.  Construction succeeds exactly when the host is a
non-empty string, the port is a number (`NaN` excluded) between 1 and 65535
— integrality is not required — and `extra` is absent, `null`, or an object;
on success the stored options enable peer certificate verification by
default (`rejectUnauthorized: true`) while a caller-supplied
`rejectUnauthorized` value in `extra` is honored. -/
theorem C7_constructor_validation (host port : JSPrim) (extra : ExtraArg) :
    ((∃ td, construct host port extra = Except.ok td) ↔
      ((∃ s, host = JSPrim.string s ∧ s ≠ []) ∧
       (∃ q, port = JSPrim.number q ∧ 1 ≤ q ∧ q ≤ 65535) ∧
       extra ≠ ExtraArg.invalid)) ∧
    (∀ td, construct host port extra = Except.ok td →
      (bagGet (extraBag extra) ("rejectUnauthorized".toList) = none →
        bagGet td.options ("rejectUnauthorized".toList) =
          some (JSPrim.boolean true)) ∧
      (∀ v, bagGet (extraBag extra) ("rejectUnauthorized".toList) = some v →
        bagGet td.options ("rejectUnauthorized".toList) = some v)) := by
  constructor
  · rw [← checkNonEmptyString_iff, ← checkInRange_iff, ← checkMaybeObject_iff]
    unfold construct
    cases h1 : checkNonEmptyString host <;>
      cases h2 : checkInRange port 1 65535 <;>
        cases h3 : checkMaybeObject extra <;> simp
  · intro td htd
    have hopts : td.options = mergeOptions host port extra := by
      unfold construct at htd
      split at htd
      · simp at htd
      split at htd
      · simp at htd
      split at htd
      · simp at htd
      · simp only [Except.ok.injEq] at htd
        subst htd
        rfl
    have hbase : bagGet td.options ("rejectUnauthorized".toList) =
        match bagGet (extraBag extra) ("rejectUnauthorized".toList) with
        | some v => some v
        | none => some (JSPrim.boolean true) := by
      rw [hopts]
      unfold mergeOptions
      rw [bagGet_append, bagGet_append,
        bagGet_forced_none host port _ (by decide) (by decide) (by decide)
          (by decide)]
      cases bagGet (extraBag extra) ("rejectUnauthorized".toList) <;>
        simp [bagGet]
    constructor
    · intro hnone
      rw [hbase, hnone]
    · intro v hv
      rw [hbase, hv]

/-- Claim C7 witness: a valid construction with no `extra` stores the
verification-enabled default. -/
theorem C7_constructor_validation_witness :
    bagGet sampleInit.options ("rejectUnauthorized".toList) =
      some (JSPrim.boolean true) :=
  ((C7_constructor_validation (JSPrim.string "example.com".toList)
      (JSPrim.number 1234) ExtraArg.absent).2 sampleInit (by rfl)).1 rfl

/-- Claim C8: the pending error is cleared on every successful handshake, is
consumed by every close — attached to the single `disconnected` notification
and then cleared — and in every reachable state with no handle the pending
error is `null`, so an error can never leak from one connection session into
a later one. -/
theorem C8_pending_error_session_local (st : TransportData)
    (h : Reachable st) :
    (onSocketSecureConnect st).1.error = none ∧
    (onSocketClose st).2 = [Notification.disconnected st.error] ∧
    (onSocketClose st).1.error = none ∧
    (st.socket = none → st.error = none) := by
  refine ⟨rfl, rfl, rfl, ?_⟩
  induction h with
  | init host port extra td htd =>
      unfold construct at htd
      split at htd
      · simp at htd
      split at htd
      · simp at htd
      split at htd
      · simp at htd
      · simp only [Except.ok.injEq] at htd
        subst htd
        intro _
        rfl
  | connectStep st fresh hr ih =>
      cases hs : st.socket with
      | none =>
          intro hnone
          simp [connect, hs] at hnone
      | some n =>
          rw [connect_snd_of_socket fresh hs]
          exact ih
  | secureConnectStep st n hr hs ih =>
      intro _
      rfl
  | timeoutStep st n hr hs ih =>
      intro hnone
      simp [onSocketTimeout, hs] at hnone
  | errorStep st n e hr hs ih =>
      intro hnone
      simp [onSocketError, hs] at hnone
  | closeStep st hr ih =>
      intro _
      rfl
  | dataStep st parse chunk hr ih =>
      intro hnone
      exact ih hnone

/-- Claim C8 witness: the freshly constructed state. -/
theorem C8_pending_error_session_local_witness :
    (onSocketSecureConnect sampleInit).1.error = none ∧
    (onSocketClose sampleInit).2 =
      [Notification.disconnected sampleInit.error] ∧
    (onSocketClose sampleInit).1.error = none ∧
    (sampleInit.socket = none → sampleInit.error = none) :=
  C8_pending_error_session_local sampleInit
    (Reachable.init (JSPrim.string "example.com".toList)
      (JSPrim.number 1234) ExtraArg.absent sampleInit (by rfl))

/-- Claim C9: handling the close notification resets exactly `error`, `socket`
and `connected` and leaves the inbound buffer untouched, so an unterminated
partial line survives the session and is prepended to the first line of the
next session's data. -/
theorem C9_close_preserves_buffer (parse : JSONParse) (st : TransportData)
    (p chunk : List Char) (j : Nat)
    (hb : st.buffer = some p) (hp : jsIndexOf p '\n' = none)
    (hj : jsIndexOf chunk '\n' = some j) :
    (onSocketClose st).1 =
      { st with error := none, socket := none, connected := false } ∧
    (onSocketClose st).1.buffer = st.buffer ∧
    (onSocketData parse (onSocketClose st).1 chunk).2 =
      lineEvents parse (p ++ chunk.take j) ++
        ((linesOf (chunk.drop (j + 1))).map (lineEvents parse)).flatten := by
  have hbuf : bufOf (onSocketClose st).1 = p := by
    simp [onSocketClose, bufOf, hb]
  have hidx : jsIndexOf (p ++ chunk) '\n' = some (j + p.length) := by
    rw [jsIndexOf_append_none chunk hp, hj]
    rfl
  have htake : (p ++ chunk).take (j + p.length) = p ++ chunk.take j := by
    rw [Nat.add_comm, List.take_append]
  have hdrop : (p ++ chunk).drop (j + p.length + 1) = chunk.drop (j + 1) := by
    rw [Nat.add_comm j p.length, Nat.add_assoc, List.drop_append]
  refine ⟨rfl, rfl, ?_⟩
  rw [onSocketData_eq, hbuf]
  rw [linesOf_some hidx, htake, hdrop]
  simp

/-- Claim C9 witness: the buffered `'a'` is joined with the next session's
first line `"b"`. -/
theorem C9_close_preserves_buffer_witness :
    (onSocketClose sampleBuffered).1 =
      { sampleBuffered with
          error := none, socket := none, connected := false } ∧
    (onSocketClose sampleBuffered).1.buffer = sampleBuffered.buffer ∧
    (onSocketData jsonParseLit (onSocketClose sampleBuffered).1
        "b\nc".toList).2 =
      lineEvents jsonParseLit (['a'] ++ ("b\nc".toList).take 1) ++
        ((linesOf (("b\nc".toList).drop (1 + 1))).map
          (lineEvents jsonParseLit)).flatten :=
  C9_close_preserves_buffer jsonParseLit sampleBuffered ['a'] "b\nc".toList 1
    rfl rfl (by decide)

/-- Lookup hits the head key. -/
theorem bagGet_cons_self (k : List Char) (v : JSPrim) (rest : Bag) :
    bagGet ((k, v) :: rest) k = some v := by
  simp [bagGet]

/-- Lookup skips a non-matching head key. -/
theorem bagGet_cons_ne (k k' : List Char) (v : JSPrim) (rest : Bag)
    (h : k' ≠ k) : bagGet ((k', v) :: rest) k = bagGet rest k := by
  simp [bagGet, h]

/-- Claim C10: whatever the extra bag contains, the stored options map `host`
and `port` to the constructor arguments and force `path` and `socket` to
`undefined`; every other key is taken from the extra bag when present, with
`rejectUnauthorized: true` as the only remaining default — `extra` can
override any default but can never redirect the connection target. -/
theorem C10_extra_never_redirects (host port : JSPrim) (b : Bag)
    (td : TransportData) (k : List Char)
    (htd : construct host port (ExtraArg.obj b) = Except.ok td) :
    bagGet td.options ("host".toList) = some host ∧
    bagGet td.options ("port".toList) = some port ∧
    bagGet td.options ("path".toList) = some JSPrim.undefined ∧
    bagGet td.options ("socket".toList) = some JSPrim.undefined ∧
    ("host".toList ≠ k → "port".toList ≠ k → "path".toList ≠ k →
      "socket".toList ≠ k →
      bagGet td.options k =
        match bagGet b k with
        | some v => some v
        | none =>
            if "rejectUnauthorized".toList = k then
              some (JSPrim.boolean true)
            else none) := by
  have hopts : td.options = mergeOptions host port (ExtraArg.obj b) := by
    unfold construct at htd
    split at htd
    · simp at htd
    split at htd
    · simp at htd
    split at htd
    · simp at htd
    · simp only [Except.ok.injEq] at htd
      subst htd
      rfl
  rw [hopts]
  unfold mergeOptions
  simp only [extraBag]
  refine ⟨?_, ?_, ?_, ?_, ?_⟩
  · rw [bagGet_append, bagGet_append, bagGet_cons_self]
  · rw [bagGet_append, bagGet_append,
      bagGet_cons_ne _ _ _ _ (by decide), bagGet_cons_self]
  · rw [bagGet_append, bagGet_append,
      bagGet_cons_ne _ _ _ _ (by decide),
      bagGet_cons_ne _ _ _ _ (by decide), bagGet_cons_self]
  · rw [bagGet_append, bagGet_append,
      bagGet_cons_ne _ _ _ _ (by decide),
      bagGet_cons_ne _ _ _ _ (by decide),
      bagGet_cons_ne _ _ _ _ (by decide), bagGet_cons_self]
  · intro h1 h2 h3 h4
    rw [bagGet_append, bagGet_append,
      bagGet_forced_none host port k h1 h2 h3 h4]
    cases hbk : bagGet b k <;> simp [bagGet, hbk]

/-- Claim C10 witness: an extra bag that tries to override `host` and disables
verification — the target stays forced, the `rejectUnauthorized` override is
honored. -/
theorem C10_extra_never_redirects_witness :
    bagGet sampleExtraTd.options ("host".toList) =
      some (JSPrim.string "example.com".toList) ∧
    bagGet sampleExtraTd.options ("port".toList) =
      some (JSPrim.number 1234) ∧
    bagGet sampleExtraTd.options ("path".toList) = some JSPrim.undefined ∧
    bagGet sampleExtraTd.options ("socket".toList) =
      some JSPrim.undefined ∧
    bagGet sampleExtraTd.options ("rejectUnauthorized".toList) =
      some (JSPrim.boolean false) := by
  have h := C10_extra_never_redirects (JSPrim.string "example.com".toList)
    (JSPrim.number 1234) sampleExtraBag sampleExtraTd
    ("rejectUnauthorized".toList) (by rfl)
  refine ⟨h.1, h.2.1, h.2.2.1, h.2.2.2.1, ?_⟩
  rw [h.2.2.2.2 (by decide) (by decide) (by decide) (by decide)]
  rfl
